import Mathlib

/-!
Verification of the DiscoverCars prefix-enumeration crawler (`src/crawler.py`)
against its natural-language specification.

The source is a multi-threaded BFS crawler: a queue of query prefixes
(`prefix_q`), a pool of worker threads that call an autocomplete endpoint
(`api_call`), deduplicate results by `location + ":" + placeID` under a shared
lock, push new-record batches into a bounded queue (`rows_q`), and a single
writer thread that fixes a CSV field schema from the first non-empty batch and
appends every batch to a CSV file and a JSONL file.

Shallow embedding conventions:
- Python strings are Lean `String`s; Python dicts holding a record are
  association lists `List (String × String)` (values are embedded as strings;
  none of the verified properties depends on the value type).
- The shared `seen_ids` set is a `List String` with membership; the Python
  `set` semantics used by the code (membership test, insertion) are exactly
  membership and cons here.
- The network is an oracle `Nat → Attempt` giving the outcome of the n-th
  HTTP attempt; `time.sleep(2)` is tracked as an accumulated delay counter.
- Concurrency is serialized: every mutation of the shared crawl state in the
  source happens under a lock (`seen_lock`, `processed_lock`, the queue's own
  lock), so a run is a sequence of atomic worker steps on the shared state.
-/

namespace Crawler

/-- Constant `MAX_DEPTH = 4` (crawler.py line 32). -/
def MAX_DEPTH : Nat := 4

/-- Constant `N_THREADS = 8` (crawler.py line 34). -/
def N_THREADS : Nat := 8

/-- The page-size limit of the autocomplete endpoint, hard-coded as the
literal `10` in the expansion test `len(data) == 10` (crawler.py line 171). -/
def PAGE_LIMIT : Nat := 10

/-- Python's `string.ascii_lowercase` as a list of characters. -/
def ascii_lowercase : List Char :=
  "abcdefghijklmnopqrstuvwxyz".toList

/-- Python's `list(string.ascii_lowercase)`: the 26 single-character seed
strings. -/
def alphabetSeeds : List String :=
  ascii_lowercase.map (fun c => String.mk [c])

/-- A record returned by the autocomplete endpoint: a JSON object, embedded
as an association list from field name to (stringified) field value. -/
structure Record where
  fields : List (String × String)
  deriving DecidableEq, Repr

/-- Field access `obj[k]` with the `DictWriter` default for a missing key. -/
def fieldOf (r : Record) (k : String) : Option String :=
  r.fields.lookup k

/-- The Record Key `f"{obj['location']}:{obj['placeID']}"`
(crawler.py line 162).  Records produced by the endpoint always carry both
fields; the `getD ""` default only totalizes the function. -/
def recordKey (r : Record) : String :=
  (fieldOf r "location").getD "" ++ ":" ++ (fieldOf r "placeID").getD ""

/-! ## `api_call` (crawler.py lines 86-109)

One HTTP attempt either yields a response with a status code and a parsed
JSON body, or raises a transport error (`ReadTimeout` / `ConnectionError`).
`api_call` returns `[]` on 404, propagates an exception on another error
status (`raise_for_status`, uncaught by the `except` clause), returns the
body on success, and on a transport error retries after `time.sleep(2)` while
`retries` is nonzero, returning `[]` once retries are exhausted. -/

/-- Outcome of a single HTTP attempt. -/
inductive Attempt where
  /-- The request completed with this status code and parsed body. -/
  | response (status : Nat) (body : List Record)
  /-- `requests.exceptions.ReadTimeout` or `ConnectionError`. -/
  | netError
  deriving DecidableEq

/-- What `api_call` does from the caller's point of view. -/
inductive ApiResult where
  /-- A normal return with a (possibly empty) record list. -/
  | ok (records : List Record)
  /-- The uncaught `HTTPError` raised by `r.raise_for_status()`. -/
  | httpError (status : Nat)
  deriving DecidableEq

/-- Embedding of `api_call(sess, prefix, token, retries)` over the attempt
oracle, where `i` indexes the next attempt.  Returns the result, the number
of HTTP attempts made, and the total seconds slept in `time.sleep(2)`
calls. -/
def api_call (oracle : Nat → Attempt) (i : Nat) (retries : Nat) :
    ApiResult × Nat × Nat :=
  match oracle i, retries with
  | .response status body, _ =>
      if status = 404 then (.ok [], 1, 0)
      else if 400 ≤ status ∧ status < 600 then (.httpError status, 1, 0)
      else (.ok body, 1, 0)
  | .netError, r + 1 =>
      ((api_call oracle (i + 1) r).1,
       (api_call oracle (i + 1) r).2.1 + 1,
       (api_call oracle (i + 1) r).2.2 + 2)
  | .netError, 0 => (.ok [], 1, 0)

/-! ## Checkpoint loading (`load_previous`, crawler.py lines 113-119)

The pickled state file either exists with contents
`{"seen_ids": ..., "queue": ..., "processed": ...}` or does not; the file
system is embedded as an `Option Checkpoint` argument. -/

/-- The pickled checkpoint blob. -/
structure Checkpoint where
  seen_ids : List String
  queue : List String
  processed : Nat
  deriving DecidableEq

/-- Embedding of `load_previous()`: with no state file, an empty seen-set,
the alphabet seeds and a zero counter; otherwise the checkpoint's three
components. -/
def load_previous (cp : Option Checkpoint) : List String × List String × Nat :=
  match cp with
  | none => ([], alphabetSeeds, 0)
  | some st => (st.seen_ids, st.queue, st.processed)

/-! ## Worker body (crawler.py lines 145-177)

A worker pops a prefix, queries the endpoint, increments the processed
counter, filters the returned records through the shared `seen_ids` set under
`seen_lock` (test-and-insert), forwards the non-empty batch of new records to
`rows_q`, and — when exactly `10` results came back and the prefix is shorter
than `MAX_DEPTH` — pushes the 26 children `prefix + ch` onto `prefix_q`. -/

/-- The body of the `with seen_lock:` block (crawler.py lines 160-165): fold
over `data` in order, skipping records whose key is already in `seen_ids` and
otherwise inserting the key and keeping the record.  Returns the grown
seen-set and the `new_rows` list. -/
def dedupBatch (seen : List String) (data : List Record) :
    List String × List Record :=
  match data with
  | [] => (seen, [])
  | obj :: rest =>
      if recordKey obj ∈ seen then dedupBatch seen rest
      else ((dedupBatch (recordKey obj :: seen) rest).1,
            obj :: (dedupBatch (recordKey obj :: seen) rest).2)

/-- The expansion step (crawler.py lines 171-173): children are enqueued
exactly when `len(data) == 10 and len(prefix) < MAX_DEPTH`. -/
def expandChildren (pfx : String) (data : List Record) : List String :=
  if data.length = 10 ∧ pfx.length < MAX_DEPTH then
    ascii_lowercase.map (fun ch => pfx.push ch)
  else []

/-- The shared state a worker step touches: the frontier queue `prefix_q`
(front of the list = head of the queue), the `seen_ids` set, the batches put
into `rows_q` so far, and `processed_counter[0]`. -/
structure CrawlState where
  frontier : List String
  seen : List String
  emitted : List (List Record)
  processed : Nat
  deriving DecidableEq

/-- One worker loop iteration on an already-popped prefix `pfx` whose query
returned `data` (crawler.py lines 156-177): count it processed, dedup-and-
emit, and maybe expand. -/
def workerStep (st : CrawlState) (pfx : String) (data : List Record) :
    CrawlState :=
  { frontier := st.frontier ++ expandChildren pfx data
    seen := (dedupBatch st.seen data).1
    emitted :=
      if (dedupBatch st.seen data).2.isEmpty then st.emitted
      else st.emitted ++ [(dedupBatch st.seen data).2]
    processed := st.processed + 1 }

/-- One scheduled step of the pool: some worker pops the head of the frontier
and runs `workerStep` on it with response `data`; with an empty frontier
nothing happens. -/
def stepRun (st : CrawlState) (data : List Record) : CrawlState :=
  match st.frontier with
  | [] => st
  | p :: rest => workerStep { st with frontier := rest } p data

/-- A run: a sequence of scheduled steps, one response per popped prefix. -/
def runSteps (st : CrawlState) (events : List (List Record)) : CrawlState :=
  events.foldl stepRun st

/-- The crawl state right after `crawl()` seeds the queue and counters from
`load_previous()` (crawler.py lines 182-191). -/
def initialState (cp : Option Checkpoint) : CrawlState :=
  { frontier := (load_previous cp).2.1
    seen := (load_previous cp).1
    emitted := []
    processed := (load_previous cp).2.2 }

/-- All Record Keys ever forwarded to the persistence queue, in order. -/
def emittedKeys (st : CrawlState) : List String :=
  (st.emitted.map (List.map recordKey)).flatten

/-- Uniqueness invariant: emitted keys are pairwise distinct and every
emitted key is recorded in the seen-set. -/
def UniqInv (st : CrawlState) : Prop :=
  (emittedKeys st).Nodup ∧ ∀ k ∈ emittedKeys st, k ∈ st.seen

/-- Depth invariant: every prefix sitting in the frontier respects the
depth bound. -/
def DepthInv (st : CrawlState) : Prop :=
  ∀ p ∈ st.frontier, p.length ≤ MAX_DEPTH

/-! ## Worker termination (crawler.py lines 151-155)

The worker loop fetches with `prefix_q.get(timeout=3)` and returns on
`queue.Empty`: the exit decision is a function of the queue contents alone
(empty for the timeout window), with no other pool state consulted. -/

/-- Embedding of `prefix_q.get(timeout=3)`: pop the head, or `queue.Empty`
when the queue stayed empty through the timeout. -/
def fetchFromQueue (frontier : List String) : Option (String × List String) :=
  match frontier with
  | [] => none
  | p :: rest => some (p, rest)

/-- Whether the worker's `except queue.Empty: return` branch fires, i.e.
whether the worker thread exits (crawler.py lines 153-155). -/
def workerExits (frontier : List String) : Bool :=
  (fetchFromQueue frontier).isNone

/-! ## The bounded result channel (`rows_q`, crawler.py line 191)

`queue.Queue(maxsize=1000)`: `put` appends when fewer than `maxsize` items
are held and blocks otherwise (embedded as `none`); `get` pops the head. -/

/-- Capacity `maxsize=1000` of `rows_q` (crawler.py line 191). -/
def rowsQMaxsize : Nat := 1000

/-- The result channel: the batches it currently holds. -/
structure RowsQueue where
  items : List (List Record)
  deriving DecidableEq

/-- Embedding of `rows_q.put(b)`: `some` of the grown queue, or `none` when
the queue is full and the producer blocks. -/
def rowsPut (q : RowsQueue) (b : List Record) : Option RowsQueue :=
  if q.items.length < rowsQMaxsize then some ⟨q.items ++ [b]⟩ else none

/-- Embedding of `rows_q.get()`: pop the oldest batch, or block (`none`)
when empty. -/
def rowsGet (q : RowsQueue) : Option (List Record × RowsQueue) :=
  match q.items with
  | [] => none
  | b :: rest => some (b, ⟨rest⟩)

/-- An operation on the channel, by a producer or the consumer. -/
inductive QOp where
  | put (b : List Record)
  | get
  deriving DecidableEq

/-- The channel after one operation; a blocked operation leaves the channel
unchanged (the blocked thread holds its value and waits). -/
def qStep (q : RowsQueue) (op : QOp) : RowsQueue :=
  match op with
  | .put b => (rowsPut q b).getD q
  | .get =>
      match rowsGet q with
      | some (_, q2) => q2
      | none => q

/-! ## Writer thread and field schema (crawler.py lines 59-75 and 128-142)

The writer drains `rows_q`; on the first non-empty batch with
`fieldnames_ref[0] is None` it fixes the schema as the nine preferred fields
followed by the other keys observed in that batch, then appends every batch
to the CSV (restricted to the schema: `extrasaction="ignore"`, missing keys
written as the `DictWriter` default `""`) and to the JSONL file (full
records).  Python's set comprehension `{k for r in rows for k in r}` has
unspecified iteration order; the embedding fixes first-occurrence order,
which the verified properties do not depend on. -/

/-- The hard-coded preferred leading fields (crawler.py lines 136-137). -/
def first : List String :=
  ["country", "countryID", "city", "cityID", "location", "place",
   "placeID", "lat", "lng"]

/-- The distinct keys occurring across a batch, first occurrence first:
the embedding of `{k for r in rows for k in r}`. -/
def collectKeys (rows : List Record) : List String :=
  ((rows.map (fun r => r.fields.map Prod.fst)).flatten).foldl
    (fun acc k => if k ∈ acc then acc else acc ++ [k]) []

/-- Schema computation `first + [k for k in fieldnames if k not in first]`
(crawler.py line 138). -/
def fixSchema (rows : List Record) : List String :=
  first ++ (collectKeys rows).filter (fun k => ¬ k ∈ first)

/-- One CSV cell: the record's value for the column, or the `DictWriter`
`restval` default `""` when the record lacks the field. -/
def csvCell (r : Record) (f : String) : String :=
  (fieldOf r f).getD ""

/-- One CSV row: the record restricted to the schema columns, in schema
order (`DictWriter` with `extrasaction="ignore"`). -/
def csvRowOf (fns : List String) (r : Record) : List String :=
  fns.map (csvCell r)

/-- What the writer has durably appended: the fixed schema (if any), the CSV
rows and the JSONL records. -/
structure WriterState where
  fieldnames : Option (List String)
  csvRows : List (List String)
  jsonl : List Record
  deriving DecidableEq

/-- Embedding of `append_rows(rows, fieldnames)` (crawler.py lines 68-75):
append the schema-restricted rows to the CSV and the full records to the
JSONL file. -/
def append_rows (st : WriterState) (rows : List Record) (fns : List String) :
    WriterState :=
  { st with
    csvRows := st.csvRows ++ rows.map (csvRowOf fns)
    jsonl := st.jsonl ++ rows }

/-- One iteration of `writer_thread` on a dequeued batch (crawler.py lines
131-142): fix the schema on the first non-empty batch, then append.  When the
schema is still unset the batch is empty (workers only put non-empty
batches), and appending an empty batch writes nothing. -/
def writerStep (st : WriterState) (rows : List Record) : WriterState :=
  if ¬ rows.isEmpty ∧ st.fieldnames = none then
    append_rows { st with fieldnames := some (fixSchema rows) } rows
      (fixSchema rows)
  else
    match st.fieldnames with
    | some fns => append_rows st rows fns
    | none => st

/-- The writer thread over a whole stream of batches (up to the `None`
sentinel). -/
def writerRun (st : WriterState) (stream : List (List Record)) : WriterState :=
  stream.foldl writerStep st

/-! ## Sample data used by concrete witnesses -/

/-- A sample autocomplete record. -/
def rec0 : Record :=
  ⟨[("location", "riga"), ("placeID", "12")]⟩

/-- A page-limit-sized response: the endpoint returning exactly 10 rows. -/
def data10 : List Record := List.replicate 10 rec0

/-! ## Helper lemmas: the test-and-insert loop -/

theorem dedupBatch_mem_seen (seen : List String) (data : List Record) :
    ∀ k ∈ seen, k ∈ (dedupBatch seen data).1 := by
  induction data generalizing seen with
  | nil => intro k hk; simpa [dedupBatch] using hk
  | cons obj rest ih =>
      intro k hk
      by_cases h : recordKey obj ∈ seen
      · simpa [dedupBatch, h] using ih seen k hk
      · simpa [dedupBatch, h] using
          ih (recordKey obj :: seen) k (List.mem_cons_of_mem _ hk)

theorem dedupBatch_new_keys_mem (seen : List String) (data : List Record) :
    ∀ r ∈ (dedupBatch seen data).2, recordKey r ∈ (dedupBatch seen data).1 := by
  induction data generalizing seen with
  | nil => intro r hr; simp [dedupBatch] at hr
  | cons obj rest ih =>
      intro r hr
      by_cases h : recordKey obj ∈ seen
      · simpa [dedupBatch, h] using ih seen r (by simpa [dedupBatch, h] using hr)
      · rw [dedupBatch] at hr ⊢
        simp only [if_neg h] at hr ⊢
        rcases List.mem_cons.1 hr with rfl | hr
        · exact dedupBatch_mem_seen _ rest _ (List.mem_cons_self _ _)
        · exact ih (recordKey obj :: seen) r hr

theorem dedupBatch_new_keys_fresh (seen : List String) (data : List Record) :
    ∀ r ∈ (dedupBatch seen data).2, recordKey r ∉ seen := by
  induction data generalizing seen with
  | nil => intro r hr; simp [dedupBatch] at hr
  | cons obj rest ih =>
      intro r hr
      by_cases h : recordKey obj ∈ seen
      · exact ih seen r (by simpa [dedupBatch, h] using hr)
      · rw [dedupBatch] at hr
        simp only [if_neg h] at hr
        rcases List.mem_cons.1 hr with rfl | hr
        · exact h
        · intro hk
          exact ih (recordKey obj :: seen) r hr (List.mem_cons_of_mem _ hk)

theorem dedupBatch_new_keys_nodup (seen : List String) (data : List Record) :
    ((dedupBatch seen data).2.map recordKey).Nodup := by
  induction data generalizing seen with
  | nil => simp [dedupBatch]
  | cons obj rest ih =>
      by_cases h : recordKey obj ∈ seen
      · simpa [dedupBatch, h] using ih seen
      · rw [dedupBatch]
        simp only [if_neg h, List.map_cons, List.nodup_cons]
        refine ⟨?_, ih (recordKey obj :: seen)⟩
        intro hmem
        obtain ⟨r, hr, hkey⟩ := List.mem_map.1 hmem
        exact dedupBatch_new_keys_fresh (recordKey obj :: seen) rest r hr
          (hkey ▸ List.mem_cons_self _ _)

/-! ## Helper lemmas: the uniqueness invariant over runs -/

theorem emittedKeys_workerStep (st : CrawlState) (pfx : String)
    (data : List Record) :
    emittedKeys (workerStep st pfx data)
      = emittedKeys st ++ (dedupBatch st.seen data).2.map recordKey := by
  by_cases h : (dedupBatch st.seen data).2.isEmpty
  · have h2 : (dedupBatch st.seen data).2 = [] := by
      simpa [List.isEmpty_iff] using h
    simp [workerStep, emittedKeys, h, h2]
  · simp [workerStep, emittedKeys, h, List.flatten_append]

theorem workerStep_uniq (st : CrawlState) (pfx : String) (data : List Record)
    (h : UniqInv st) : UniqInv (workerStep st pfx data) := by
  obtain ⟨hnd, hsub⟩ := h
  constructor
  · rw [emittedKeys_workerStep, List.nodup_append]
    refine ⟨hnd, dedupBatch_new_keys_nodup _ _, ?_⟩
    intro k hk1 hk2
    obtain ⟨r, hr, rfl⟩ := List.mem_map.1 hk2
    exact dedupBatch_new_keys_fresh _ _ r hr (hsub _ hk1)
  · intro k hk
    rw [emittedKeys_workerStep] at hk
    rcases List.mem_append.1 hk with hk | hk
    · exact dedupBatch_mem_seen _ _ _ (hsub _ hk)
    · obtain ⟨r, hr, rfl⟩ := List.mem_map.1 hk
      exact dedupBatch_new_keys_mem _ _ r hr

theorem stepRun_uniq (st : CrawlState) (data : List Record)
    (h : UniqInv st) : UniqInv (stepRun st data) := by
  obtain ⟨f, s, e, n⟩ := st
  cases f with
  | nil => exact h
  | cons p rest => exact workerStep_uniq ⟨rest, s, e, n⟩ p data h

theorem runSteps_uniq (st : CrawlState) (events : List (List Record))
    (h : UniqInv st) : UniqInv (runSteps st events) := by
  induction events generalizing st with
  | nil => exact h
  | cons ev evs ih => exact ih (stepRun st ev) (stepRun_uniq st ev h)

theorem uniqInv_initial (cp : Option Checkpoint) : UniqInv (initialState cp) := by
  cases cp <;>
    exact ⟨List.nodup_nil, fun k hk => by
      simp [emittedKeys, initialState, load_previous] at hk⟩

/-! ## Helper lemmas: the depth bound over runs -/

theorem expandChildren_length_le (pfx : String) (data : List Record) :
    ∀ q ∈ expandChildren pfx data, q.length ≤ MAX_DEPTH := by
  intro q hq
  unfold expandChildren at hq
  split at hq
  · rename_i hcond
    obtain ⟨ch, _, rfl⟩ := List.mem_map.1 hq
    rw [String.length_push]
    omega
  · simp at hq

theorem workerStep_depth (st : CrawlState) (pfx : String) (data : List Record)
    (h : DepthInv st) : DepthInv (workerStep st pfx data) := by
  intro q hq
  simp only [workerStep] at hq
  rcases List.mem_append.1 hq with hq | hq
  · exact h q hq
  · exact expandChildren_length_le pfx data q hq

theorem stepRun_depth (st : CrawlState) (data : List Record)
    (h : DepthInv st) : DepthInv (stepRun st data) := by
  obtain ⟨f, s, e, n⟩ := st
  cases f with
  | nil => exact h
  | cons p rest =>
      exact workerStep_depth ⟨rest, s, e, n⟩ p data
        (fun q hq => h q (List.mem_cons_of_mem _ hq))

theorem runSteps_depth (st : CrawlState) (events : List (List Record))
    (h : DepthInv st) : DepthInv (runSteps st events) := by
  induction events generalizing st with
  | nil => exact h
  | cons ev evs ih => exact ih (stepRun st ev) (stepRun_depth st ev h)

theorem depthInv_initial : DepthInv (initialState none) := by
  have h : ∀ p ∈ alphabetSeeds, p.length ≤ MAX_DEPTH := by decide
  exact h

/-! ## Helper lemmas: retries in `api_call` -/

theorem api_call_response_eq (oracle : Nat → Attempt) (i retries status : Nat)
    (body : List Record) (h : oracle i = .response status body) :
    api_call oracle i retries =
      if status = 404 then (.ok [], 1, 0)
      else if 400 ≤ status ∧ status < 600 then (.httpError status, 1, 0)
      else (.ok body, 1, 0) := by
  rw [api_call.eq_def, h]

theorem api_call_netError_zero (oracle : Nat → Attempt) (i : Nat)
    (h : oracle i = .netError) : api_call oracle i 0 = (.ok [], 1, 0) := by
  rw [api_call.eq_def, h]

theorem api_call_netError_succ (oracle : Nat → Attempt) (i r : Nat)
    (h : oracle i = .netError) :
    api_call oracle i (r + 1) =
      ((api_call oracle (i + 1) r).1,
       (api_call oracle (i + 1) r).2.1 + 1,
       (api_call oracle (i + 1) r).2.2 + 2) := by
  rw [api_call.eq_def, h]

theorem api_call_attempts_le (oracle : Nat → Attempt) :
    ∀ r i, (api_call oracle i r).2.1 ≤ r + 1 := by
  intro r
  induction r with
  | zero =>
      intro i
      cases h : oracle i with
      | response status body =>
          rw [api_call_response_eq oracle i 0 status body h]
          split_ifs <;> simp
      | netError =>
          rw [api_call_netError_zero oracle i h]
  | succ r ih =>
      intro i
      cases h : oracle i with
      | response status body =>
          rw [api_call_response_eq oracle i (r + 1) status body h]
          split_ifs <;> simp
      | netError =>
          rw [api_call_netError_succ oracle i r h]
          have hr := ih (i + 1)
          show (api_call oracle (i + 1) r).2.1 + 1 ≤ r + 1 + 1
          omega

theorem api_call_all_netError (oracle : Nat → Attempt)
    (h : ∀ j, oracle j = .netError) :
    ∀ r i, api_call oracle i r = (.ok [], r + 1, 2 * r) := by
  intro r
  induction r with
  | zero => intro i; exact api_call_netError_zero oracle i (h i)
  | succ r ih =>
      intro i
      rw [api_call_netError_succ oracle i r (h i), ih (i + 1)]
      show (ApiResult.ok ([] : List Record), r + 1 + 1, 2 * r + 2)
          = (ApiResult.ok ([] : List Record), r + 1 + 1, 2 * (r + 1))
      have h2 : 2 * r + 2 = 2 * (r + 1) := by omega
      rw [h2]

/-! ## Helper lemmas: the bounded result channel -/

theorem qStep_length_le (q : RowsQueue) (op : QOp)
    (h : q.items.length ≤ rowsQMaxsize) :
    (qStep q op).items.length ≤ rowsQMaxsize := by
  cases op with
  | put b =>
      by_cases hlt : q.items.length < rowsQMaxsize
      · simp [qStep, rowsPut, hlt]; omega
      · simpa [qStep, rowsPut, hlt] using h
  | get =>
      cases hq : q.items with
      | nil => simp [qStep, rowsGet, hq]
      | cons b rest =>
          have : q.items.length = rest.length + 1 := by rw [hq]; simp
          simp only [qStep, rowsGet, hq]
          omega

theorem foldl_qStep_le (ops : List QOp) (q : RowsQueue)
    (h : q.items.length ≤ rowsQMaxsize) :
    (ops.foldl qStep q).items.length ≤ rowsQMaxsize := by
  induction ops generalizing q with
  | nil => exact h
  | cons op ops ih => exact ih (qStep q op) (qStep_length_le q op h)

/-! ## Helper lemmas: the writer thread -/

theorem writerStep_keeps_schema (st : WriterState) (rows : List Record)
    (fns : List String) (h : st.fieldnames = some fns) :
    (writerStep st rows).fieldnames = some fns := by
  simp [writerStep, h, append_rows]

theorem writerRun_keeps_schema (stream : List (List Record))
    (st : WriterState) (fns : List String) (h : st.fieldnames = some fns) :
    (writerRun st stream).fieldnames = some fns := by
  induction stream generalizing st with
  | nil => exact h
  | cons rows stream ih =>
      exact ih (writerStep st rows) (writerStep_keeps_schema st rows fns h)

theorem writerStep_fixes_schema (st : WriterState) (rows : List Record)
    (h : st.fieldnames = none) (hrows : rows ≠ []) :
    (writerStep st rows).fieldnames = some (fixSchema rows) := by
  have hne : ¬ rows.isEmpty := by simpa [List.isEmpty_iff] using hrows
  simp [writerStep, h, hne, append_rows]

theorem writerStep_jsonl (st : WriterState) (rows : List Record) :
    (writerStep st rows).jsonl = st.jsonl ++ rows := by
  unfold writerStep
  split
  · simp [append_rows]
  · rename_i hcond
    cases hst : st.fieldnames with
    | some fns => simp [append_rows]
    | none =>
        have : rows.isEmpty := by
          by_contra hne
          exact hcond ⟨hne, hst⟩
        have h2 : rows = [] := by simpa [List.isEmpty_iff] using this
        simp [h2]

theorem writerRun_jsonl (stream : List (List Record)) (st : WriterState) :
    (writerRun st stream).jsonl = st.jsonl ++ stream.flatten := by
  induction stream generalizing st with
  | nil => simp [writerRun]
  | cons rows stream ih =>
      have step := writerStep_jsonl st rows
      calc (writerRun st (rows :: stream)).jsonl
          = (writerRun (writerStep st rows) stream).jsonl := rfl
        _ = (writerStep st rows).jsonl ++ stream.flatten := ih (writerStep st rows)
        _ = st.jsonl ++ (rows :: stream).flatten := by
              rw [step]; simp [List.append_assoc]

theorem writerStep_csv (st : WriterState) (rows : List Record)
    (fns : List String) (h : st.fieldnames = some fns) :
    (writerStep st rows).csvRows = st.csvRows ++ rows.map (csvRowOf fns) := by
  simp [writerStep, h, append_rows]

/-! ## The claims -/

/-- Claim C1: each Record Key, computed as location + ":" + placeID, is
forwarded to the persistence pipeline at most once per run, including runs
resumed from a checkpoint: the test-and-insert under `seen_lock` keeps for
the emitted batch exactly the records whose key was not already in the
shared seen-set and inserts those keys in the same critical section, so the
emitted keys stay pairwise distinct through any run and no key appears more
than once in the line-delimited sink the writer builds from the batches. -/
theorem record_key_forwarded_at_most_once
    (st : CrawlState) (seen : List String) (data : List Record)
    (events : List (List Record)) (h : UniqInv st) :
    (∀ r ∈ (dedupBatch seen data).2,
        recordKey r ∉ seen ∧ recordKey r ∈ (dedupBatch seen data).1)
  ∧ ((dedupBatch seen data).2.map recordKey).Nodup
  ∧ UniqInv (runSteps st events)
  ∧ (∀ fns0 : Option (List String),
       (((writerRun ⟨fns0, [], []⟩ (runSteps st events).emitted).jsonl).map
           recordKey).Nodup) := by
  refine ⟨fun r hr => ⟨dedupBatch_new_keys_fresh seen data r hr,
            dedupBatch_new_keys_mem seen data r hr⟩,
          dedupBatch_new_keys_nodup seen data,
          runSteps_uniq st events h, fun fns0 => ?_⟩
  have hnd := (runSteps_uniq st events h).1
  rw [writerRun_jsonl, List.nil_append, List.map_flatten]
  exact hnd

/-- Claim C1 witness: from the fresh initial state, two successive
page-limit responses carrying the same record leave the uniqueness
invariant intact. -/
theorem record_key_forwarded_at_most_once_witness :
    UniqInv (runSteps (initialState none) [data10, data10]) :=
  (record_key_forwarded_at_most_once (initialState none) [] data10
      [data10, data10] (uniqInv_initial none)).2.2.1

/-- Claim C2: a worker inserts children exactly per the expansion rule —
when the query returned exactly 10 results and the prefix depth is strictly
below MAX_DEPTH, exactly one child per alphabet character (the prefix with
that character appended) is enqueued; at depth MAX_DEPTH no children are
enqueued regardless of result count; with a result count other than 10 no
children are enqueued. -/
theorem expansion_rule (st : CrawlState) (pfx : String) (data : List Record) :
    ((workerStep st pfx data).frontier = st.frontier ++ expandChildren pfx data)
  ∧ (data.length = 10 → pfx.length < MAX_DEPTH →
       expandChildren pfx data = ascii_lowercase.map (fun ch => pfx.push ch))
  ∧ (pfx.length = MAX_DEPTH → expandChildren pfx data = [])
  ∧ (data.length ≠ 10 → expandChildren pfx data = []) := by
  refine ⟨rfl, fun h1 h2 => ?_, fun h => ?_, fun h => ?_⟩
  · simp [expandChildren, h1, h2]
  · simp [expandChildren, h]
  · simp [expandChildren, h]

/-- Claim C2 witness: the three cases of the expansion rule at depth 1,
depth MAX_DEPTH, and a non-page-limit result count. -/
theorem expansion_rule_witness :
    expandChildren "a" data10
      = ascii_lowercase.map (fun ch => String.push "a" ch)
  ∧ expandChildren "abcd" data10 = []
  ∧ expandChildren "ab" [] = [] :=
  ⟨(expansion_rule ⟨[], [], [], 0⟩ "a" data10).2.1 (by decide) (by decide),
   (expansion_rule ⟨[], [], [], 0⟩ "abcd" data10).2.2.1 (by decide),
   (expansion_rule ⟨[], [], [], 0⟩ "ab" []).2.2.2 (by decide)⟩

/-- Claim C3 counterexample: when the source returns the 10-record page
limit for the one-character seed "a", the enqueued children "aa" through
"az" number 26 under the 26-letter alphabet, not 25 as the claim states. -/
theorem scenarioA_not_25 : (expandChildren "a" data10).length ≠ 25 := by
  decide

/-- Claim C3 (amended): when the source returns 10 records (the page limit)
for the one-character seed "a", the children "aa" through "az" are enqueued
into the Frontier, amounting to 26 new entries under the 26-letter
alphabet. -/
theorem scenarioA_children_26 :
    (workerStep ⟨[], [], [], 0⟩ "a" data10).frontier
      = ["aa", "ab", "ac", "ad", "ae", "af", "ag", "ah", "ai", "aj", "ak",
         "al", "am", "an", "ao", "ap", "aq", "ar", "as", "at", "au", "av",
         "aw", "ax", "ay", "az"]
  ∧ (workerStep ⟨[], [], [], 0⟩ "a" data10).frontier.length = 26 := by
  constructor <;> decide

/-- Claim C4: every prefix ever inserted into the Frontier has length at
most MAX_DEPTH — the fresh seeds are single characters, a child (parent
plus one character) is produced only when the parent is strictly below the
bound, and the bound is preserved by every run step from any state
respecting it. -/
theorem depth_bound (st : CrawlState) (events : List (List Record))
    (h : DepthInv st) :
    (∀ p ∈ alphabetSeeds, p.length = 1)
  ∧ DepthInv (initialState none)
  ∧ (∀ pfx data, ∀ q ∈ expandChildren pfx data,
       pfx.length < MAX_DEPTH ∧ q.length = pfx.length + 1)
  ∧ DepthInv (runSteps st events) := by
  refine ⟨by decide, depthInv_initial, fun pfx data q hq => ?_,
          runSteps_depth st events h⟩
  unfold expandChildren at hq
  split at hq
  · rename_i hcond
    obtain ⟨ch, _, rfl⟩ := List.mem_map.1 hq
    exact ⟨hcond.2, String.length_push ch⟩
  · simp at hq

/-- Claim C4 witness: the depth bound holds after a concrete run from the
fresh initial state. -/
theorem depth_bound_witness :
    DepthInv (runSteps (initialState none) [data10]) :=
  (depth_bound (initialState none) [data10] depthInv_initial).2.2.2

/-- Claim C5 counterexample: the worker's exit decision is the timed-out
`prefix_q.get` alone, a function of the queue contents only — with an empty
frontier it exits even while a sibling worker holds one in-flight prefix,
so exiting does not imply an outstanding count of zero. -/
theorem worker_exit_ignores_inflight :
    ¬ (∀ (fl : List String) (inflight : Nat),
         workerExits fl = true → inflight = 0) := by
  intro hclaim
  exact absurd (hclaim [] 1 rfl) one_ne_zero

/-- Claim C5 (amended): a worker terminates exactly when the frontier queue
is empty at its timed-out pop; no outstanding-prefix count is consulted, so
termination is decided by the queue-empty-for-a-timeout check alone. -/
theorem worker_exit_iff_frontier_empty (fl : List String) :
    workerExits fl = true ↔ fl = [] := by
  cases fl <;> simp [workerExits, fetchFromQueue]

/-- Claim C6: with no checkpoint file the crawl starts with an empty
seen-key set, a Frontier holding exactly the 26 single-character
lowercase-alphabet seeds, and a zero processed count; with a checkpoint the
loaded seen keys, pending prefixes and processed count seed the Dedup
Index, the Frontier and the counter respectively. -/
theorem startup_seeding :
    load_previous none = ([], alphabetSeeds, 0)
  ∧ alphabetSeeds
      = ["a", "b", "c", "d", "e", "f", "g", "h", "i", "j", "k", "l", "m",
         "n", "o", "p", "q", "r", "s", "t", "u", "v", "w", "x", "y", "z"]
  ∧ initialState none = ⟨alphabetSeeds, [], [], 0⟩
  ∧ (∀ cp : Checkpoint,
       load_previous (some cp) = (cp.seen_ids, cp.queue, cp.processed))
  ∧ (∀ cp : Checkpoint,
       initialState (some cp) = ⟨cp.queue, cp.seen_ids, [], cp.processed⟩) :=
  ⟨rfl, by decide, rfl, fun _ => rfl, fun _ => rfl⟩

/-- Claim C7: a 404 response yields an empty list without raising; a
transport failure is retried a bounded number of times with the fixed
2-second delay between attempts, and exhausted retries degrade to zero
results for the prefix; the worker still counts the prefix as processed
afterwards and continues. -/
theorem query_error_handling (oracle : Nat → Attempt) (i r : Nat)
    (body : List Record) (st : CrawlState) (pfx : String)
    (data : List Record) :
    (oracle i = .response 404 body → api_call oracle i r = (.ok [], 1, 0))
  ∧ ((∀ j, oracle j = .netError) →
       api_call oracle i r = (.ok [], r + 1, 2 * r))
  ∧ (workerStep st pfx data).processed = st.processed + 1 := by
  refine ⟨fun h => ?_, fun h => api_call_all_netError oracle h r i, rfl⟩
  rw [api_call_response_eq oracle i r 404 body h]
  simp

/-- Claim C7 witness: with every attempt timing out, `retries = 3` makes 4
attempts, sleeps 6 seconds, and returns the empty degraded result; a 404
yields the empty result on the first attempt. -/
theorem query_error_handling_witness :
    api_call (fun _ => Attempt.netError) 0 3 = (.ok [], 4, 6)
  ∧ api_call (fun _ => Attempt.response 404 []) 0 3 = (.ok [], 1, 0) :=
  ⟨(query_error_handling (fun _ => Attempt.netError) 0 3 []
      ⟨[], [], [], 0⟩ "a" []).2.1 (fun _ => rfl),
   (query_error_handling (fun _ => Attempt.response 404 []) 0 3 []
      ⟨[], [], [], 0⟩ "a" []).1 rfl⟩

/-- Claim C8: the result channel is created with the fixed bound 1000; a
producer's put is refused (blocks) exactly when the channel already holds
that many batches, and along any sequence of put and get operations from
the empty channel the occupancy never exceeds the bound. -/
theorem backpressure_bounded (ops : List QOp) (q : RowsQueue)
    (b : List Record) :
    rowsQMaxsize = 1000
  ∧ (ops.foldl qStep ⟨[]⟩).items.length ≤ rowsQMaxsize
  ∧ (rowsQMaxsize ≤ q.items.length → rowsPut q b = none)
  ∧ (q.items.length ≤ rowsQMaxsize →
       (qStep q (QOp.put b)).items.length ≤ rowsQMaxsize) := by
  refine ⟨rfl, foldl_qStep_le ops ⟨[]⟩ (by simp), fun h => ?_,
          fun h => qStep_length_le q (QOp.put b) h⟩
  unfold rowsPut
  rw [if_neg (by omega)]

/-- Claim C8 witness: a put on a channel holding 1000 batches is refused,
and a put on the empty channel keeps the occupancy within the bound. -/
theorem backpressure_bounded_witness :
    rowsPut ⟨List.replicate 1000 []⟩ [] = none
  ∧ (qStep ⟨[]⟩ (QOp.put [])).items.length ≤ rowsQMaxsize :=
  ⟨(backpressure_bounded [] ⟨List.replicate 1000 []⟩ []).2.2.1
      (by simp only [rowsQMaxsize, List.length_replicate]; exact Nat.le.refl),
   (backpressure_bounded [] ⟨[]⟩ []).2.2.2 (by simp)⟩

/-- Claim C9: the Field Schema is fixed from the first non-empty batch as
the preferred well-known fields in their fixed order followed by the other
keys observed in that batch; once some schema is fixed no later batch
changes it (stepwise and over whole streams); thereafter each record's CSV
row is its restriction to the schema columns — unknown extra fields
ignored, missing fields written empty — while the line-delimited sink
receives the full records. -/
theorem field_schema_fixed_once (st : WriterState) (rows : List Record)
    (fns : List String) (r : Record) (stream : List (List Record)) :
    (st.fieldnames = some fns → (writerStep st rows).fieldnames = some fns)
  ∧ (st.fieldnames = some fns → (writerRun st stream).fieldnames = some fns)
  ∧ (st.fieldnames = none → rows ≠ [] →
       (writerStep st rows).fieldnames
         = some (first ++ (collectKeys rows).filter (fun k => ¬ k ∈ first)))
  ∧ (st.fieldnames = some fns →
       (writerStep st rows).csvRows = st.csvRows ++ rows.map (csvRowOf fns))
  ∧ (writerStep st rows).jsonl = st.jsonl ++ rows
  ∧ csvRowOf fns r = fns.map (fun f => (fieldOf r f).getD "") := by
  refine ⟨writerStep_keeps_schema st rows fns,
          fun h => writerRun_keeps_schema stream st fns h,
          fun h hr => ?_,
          writerStep_csv st rows fns,
          writerStep_jsonl st rows, rfl⟩
  rw [writerStep_fixes_schema st rows h hr]
  rfl

/-- Claim C9 witness: the first non-empty batch fixes the schema to the
preferred fields followed by the other observed keys, and a batch arriving
after fixing reaches the line-delimited sink in full. -/
theorem field_schema_fixed_once_witness :
    (writerStep ⟨none, [], []⟩ [rec0]).fieldnames
      = some (first ++ (collectKeys [rec0]).filter (fun k => ¬ k ∈ first))
  ∧ (writerStep ⟨some first, [], []⟩ [rec0]).jsonl = [] ++ [rec0] :=
  ⟨(field_schema_fixed_once ⟨none, [], []⟩ [rec0] first rec0 []).2.2.1
      rfl (by decide),
   (field_schema_fixed_once ⟨some first, [], []⟩ [rec0] first rec0
      []).2.2.2.2.1⟩

/-- Claim C10: for every oracle, attempt index and retry budget r, api_call
makes at most r + 1 network attempts, and with the budget at zero the
exhausted-retry branch returns the empty list instead of recursing. -/
theorem api_call_retries_bounded (oracle : Nat → Attempt) (i r : Nat) :
    (api_call oracle i r).2.1 ≤ r + 1
  ∧ (oracle i = .netError → api_call oracle i 0 = (.ok [], 1, 0)) :=
  ⟨api_call_attempts_le oracle r i,
   fun h => api_call_netError_zero oracle i h⟩

/-- Claim C10 witness: with every attempt timing out and a budget of 5, at
most 6 attempts are made, and a zero budget returns the empty list after
one attempt. -/
theorem api_call_retries_bounded_witness :
    (api_call (fun _ => Attempt.netError) 0 5).2.1 ≤ 5 + 1
  ∧ api_call (fun _ => Attempt.netError) 0 0 = (.ok [], 1, 0) :=
  ⟨(api_call_retries_bounded (fun _ => Attempt.netError) 0 5).1,
   (api_call_retries_bounded (fun _ => Attempt.netError) 0 0).2 rfl⟩

end Crawler
